import Mathlib

/-! CloudWaste Yaoundé: the bin agent, the attachment loop and the flow statistics

A shallow embedding of `src/cloudwaste-yaounde.cc`:

* `SmartBinApp` with `SendBinData`, `StartApplication`, `StopApplication`
  (lines 18-71), running on a small discrete-event scheduler;
* the attachment loop of `main` (lines 193-196);
* the statistics aggregation of `main` (lines 312-325).

Virtual time is a natural number of clock ticks; the number of ticks in a
second (10^9 at the default resolution of `ns3::Time`) is a parameter.
-/

namespace CloudWaste

/-! ## Scheduler -/

/-- The member functions of the application an event can invoke. -/
inductive Action where
  | startApplication
  | sendBinData
  | stopApplication
  deriving DecidableEq, Repr

/-- A scheduled event: its unique id, its fire time and what it invokes. -/
structure Event where
  uid : Nat
  ts : Nat
  action : Action
  deriving DecidableEq, Repr

/-- Modelled from the spec: the event queue of `ns3::Simulator` (the library is
not part of the sources). The next event to fire is the one with the least fire
time; among events with the same fire time the one scheduled first wins.  The
queue is kept in scheduling order, so the head is preferred on a tie. -/
def earliest : List Event → Option Event
  | [] => none
  | e :: es =>
    match earliest es with
    | none => some e
    | some b => if e.ts ≤ b.ts then some e else some b

/-- State of the socket pointer `m_socket`. -/
inductive SocketState where
  | null
  | connected
  | closed
  deriving DecidableEq, Repr

/-- Fields of `class SmartBinApp` (lines 20-25).  `m_sendEvent` is `none` for a
default-constructed `EventId`, otherwise the uid of the event it refers to. -/
structure SmartBinApp where
  m_socket : SocketState
  m_binId : Nat
  m_fillLevel : Nat
  m_sendEvent : Option Nat
  m_interval : Nat

/-- One bin agent together with the simulator it runs on.  `rng k` is the value
returned by the `k`-th call of `rand()`; `sent` logs every packet handed to the
socket as (virtual time, reported fill level), oldest first. -/
structure World where
  now : Nat
  nextUid : Nat
  queue : List Event
  rng : Nat → Nat
  randCalls : Nat
  app : SmartBinApp
  sent : List (Nat × Nat)

/-- Modelled from the spec: `Simulator::Schedule(delay, action)`; the new event
fires at `now + delay` and its uid is returned as the handle. -/
def Schedule (w : World) (delay : Nat) (a : Action) : World × Nat :=
  ({ w with nextUid := w.nextUid + 1,
            queue := w.queue ++ [{ uid := w.nextUid, ts := w.now + delay, action := a }] },
   w.nextUid)

/-- Modelled from the spec: `Simulator::Cancel(handle)`; the event no longer
fires.  Cancelling a default, fired or cancelled handle does nothing. -/
def Cancel (w : World) (h : Option Nat) : World :=
  match h with
  | none => w
  | some u => { w with queue := w.queue.filter (fun e => e.uid != u) }

/-- The call `rand()`: the next value of the random stream. -/
def rand (w : World) : Nat × World :=
  (w.rng w.randCalls, { w with randCalls := w.randCalls + 1 })

/-! ## SmartBinApp -/

/-- `SmartBinApp::SendBinData` (lines 27-47): hand the packet reporting the
current fill level to the socket, raise the fill level by `rand() % 15 + 5`
in `uint32_t` arithmetic, capped at 100, and schedule the next send
`m_interval` later, storing its handle in `m_sendEvent`. -/
def SendBinData (w : World) : World :=
  let w1 := { w with sent := w.sent ++ [(w.now, w.app.m_fillLevel)] }
  let (r, w2) := rand w1
  let w3 := { w2 with app := { w2.app with
    m_fillLevel := min 100 ((w2.app.m_fillLevel + (r % 15 + 5)) % 2 ^ 32) } }
  let (w4, h) := Schedule w3 w3.app.m_interval Action.sendBinData
  { w4 with app := { w4.app with m_sendEvent := some h } }

/-- `SmartBinApp::StartApplication` (lines 49-54). -/
def StartApplication (w : World) : World :=
  let w1 := { w with app := { w.app with m_socket := SocketState.connected } }
  let (r, w2) := rand w1
  let w3 := { w2 with app := { w2.app with m_fillLevel := r % 40 + 20 } }
  SendBinData w3

/-- `SmartBinApp::StopApplication` (lines 56-61). -/
def StopApplication (w : World) : World :=
  let w1 := match w.app.m_socket with
    | SocketState.null => w
    | _ => { w with app := { w.app with m_socket := SocketState.closed } }
  Cancel w1 w1.app.m_sendEvent

/-- Run the member function an event refers to. -/
def invoke (w : World) : Action → World
  | Action.startApplication => StartApplication w
  | Action.sendBinData => SendBinData w
  | Action.stopApplication => StopApplication w

/-- Modelled from the spec: the scheduler takes the event `e` off the queue,
moves the clock to its fire time and runs it. -/
def fireEvent (w : World) (e : Event) : World :=
  invoke { w with now := e.ts, queue := w.queue.filter (fun x => x.uid != e.uid) } e.action

/-- Fire the next pending event, if there is one. -/
def fire (w : World) : World :=
  match earliest w.queue with
  | none => w
  | some e => fireEvent w e

/-- Modelled from the spec: `run_until(stop_time)`.  Events fire in order while
their fire time is at most `stopTime`; later events stay in the queue unfired.
`fuel` bounds the number of events fired; `none` means it ran out with an event
still due. -/
def runUntil : Nat → Nat → World → Option World
  | 0, stopTime, w =>
    match earliest w.queue with
    | none => some w
    | some e => if e.ts ≤ stopTime then none else some w
  | fuel + 1, stopTime, w =>
    match earliest w.queue with
    | none => some w
    | some e => if e.ts ≤ stopTime then runUntil fuel stopTime (fireEvent w e) else some w

/-- The constructor `SmartBinApp()` followed by `Setup(addr, binId, interval)`
(lines 64-70), on a simulator with nothing scheduled. -/
def initWorld (rng : Nat → Nat) (binId interval : Nat) : World :=
  { now := 0, nextUid := 0, queue := [], rng := rng, randCalls := 0,
    app := { m_socket := SocketState.null, m_binId := binId, m_fillLevel := 0,
             m_sendEvent := none, m_interval := interval },
    sent := [] }

/-- What can happen to an agent: its start hook runs, the scheduler fires its
next pending event, its stop hook runs. -/
inductive Op where
  | start
  | fire
  | stop
  deriving DecidableEq, Repr

/-- Effect of one operation. -/
def applyOp (w : World) : Op → World
  | Op.start => StartApplication w
  | Op.fire => fire w
  | Op.stop => StopApplication w

/-- Effect of a sequence of operations, first to last. -/
def exec (w : World) (ops : List Op) : World :=
  ops.foldl applyOp w

/-- Number of send events of the agent pending in the scheduler. -/
def pendingSends (w : World) : Nat :=
  (w.queue.filter (fun e => e.action == Action.sendBinData)).length

/-- Whether, along the sequence of operations `ops` run from `w`, every `start`
is executed while no send event of the agent is pending (the agent is Idle). -/
def startsWhenIdle : World → List Op → Bool
  | _, [] => true
  | w, op :: ops =>
    (op != Op.start || pendingSends w == 0) && startsWhenIdle (applyOp w op) ops

/-- The scheduler holds nothing of the agent and its socket is not open, or it
holds exactly one event: the send event `m_sendEvent` refers to. -/
def Tracked (w : World) : Prop :=
  (w.queue = [] ∧ w.app.m_socket ≠ SocketState.connected) ∨
    ∃ e : Event, w.queue = [e] ∧ e.action = Action.sendBinData ∧
      w.app.m_sendEvent = some e.uid

/-- The fill levels reported by the packets logged at position `n` and later,
oldest first. -/
def levelsFrom (n : Nat) (w : World) : List Nat :=
  (w.sent.drop n).map Prod.snd

/-- The fill level and every logged level are at most 100 and the scheduler
holds send events only. -/
def Sane (w : World) : Prop :=
  w.app.m_fillLevel ≤ 100 ∧ (∀ e ∈ w.queue, e.action = Action.sendBinData) ∧
    ∀ p ∈ w.sent, p.2 ≤ 100

/-- The levels logged from position `n` on are in non-decreasing order and none
is above the current fill level. -/
def Mono (n : Nat) (w : World) : Prop :=
  n ≤ w.sent.length ∧ List.Pairwise (fun a b => a ≤ b) (levelsFrom n w) ∧
    ∀ f ∈ levelsFrom n w, f ≤ w.app.m_fillLevel

/-- The time `Seconds(n)` in ticks, with `tick` ticks to the second. -/
def Seconds (tick n : Nat) : Nat := n * tick

/-- The one-bin scenario: interval 30 s, `StartApplication` scheduled at 2 s and
`StopApplication` at 65 s, as `Application::SetStartTime` and `SetStopTime`
do. -/
def oneBinScenario (tick : Nat) (rng : Nat → Nat) (binId : Nat) : World :=
  let w0 := initWorld rng binId (Seconds tick 30)
  let w1 := (Schedule w0 (Seconds tick 2) Action.startApplication).1
  (Schedule w1 (Seconds tick 65) Action.stopApplication).1

/-! ## Attachment of the bins -/

/-- Number of base stations: `enbNodes.Create(2)` (line 147). -/
def nEnbs : Nat := 2

/-- The bin attachment loop of `main` (lines 194-196): for `i` from 0 below the
number of bins, `Attach(binDevs.Get(i), enbDevs.Get(i % 2))`.  The result lists
the calls in order as (bin index, base-station index). -/
def attachBins (nBins : Nat) : List (Nat × Nat) :=
  (List.range nBins).foldl (fun attached i => attached ++ [(i, i % 2)]) []

/-- Number of bins the loop attaches to base station `enb`. -/
def binsOn (enb nBins : Nat) : Nat :=
  ((attachBins nBins).filter (fun a => a.2 == enb)).length

/-! ## Flow statistics -/

/-- The fields of `FlowMonitor::FlowStats` read by `main`: the `uint32_t`
counters `txPackets` and `rxPackets`, and `delaySum.GetSeconds()`, for which an
exact rational stands in for the `double`. -/
structure FlowStats where
  txPackets : Nat
  rxPackets : Nat
  delaySum : ℚ

/-- What the type of the container `std::map<FlowId, FlowStats>` guarantees:
flow ids are `uint32_t`, so there are at most 2^32 flows, and both packet
counters of a flow are `uint32_t`. -/
def WellTyped (stats : List FlowStats) : Prop :=
  stats.length ≤ 2 ^ 32 ∧ ∀ f ∈ stats, f.txPackets < 2 ^ 32 ∧ f.rxPackets < 2 ^ 32

instance (stats : List FlowStats) : Decidable (WellTyped stats) :=
  inferInstanceAs (Decidable (stats.length ≤ 2 ^ 32 ∧
    ∀ f ∈ stats, f.txPackets < 2 ^ 32 ∧ f.rxPackets < 2 ^ 32))

/-- The accumulators of lines 312-314. -/
structure Totals where
  totalDelay : ℚ
  totalRxPackets : Nat
  totalTxPackets : Nat

/-- Body of the loop over the flows (lines 317-321); the packet totals are
`uint64_t`. -/
def accumulate (t : Totals) (i : FlowStats) : Totals :=
  { totalRxPackets := (t.totalRxPackets + i.rxPackets) % 2 ^ 64,
    totalTxPackets := (t.totalTxPackets + i.txPackets) % 2 ^ 64,
    totalDelay := if i.rxPackets > 0 then t.totalDelay + i.delaySum else t.totalDelay }

/-- The loop of lines 312-322 over the flows in iteration order. -/
def totals (stats : List FlowStats) : Totals :=
  stats.foldl accumulate { totalDelay := 0, totalRxPackets := 0, totalTxPackets := 0 }

/-- A division that reports a zero divisor instead of carrying it out. -/
def divide (a b : ℚ) : Option ℚ :=
  if b = 0 then none else some (a / b)

/-- Line 324: `avgDelay`, in milliseconds; `none` would be a division by zero. -/
def avgDelay (stats : List FlowStats) : Option ℚ :=
  if (totals stats).totalRxPackets > 0 then
    (divide (totals stats).totalDelay ((totals stats).totalRxPackets : ℚ)).map (fun q => q * 1000)
  else some 0

/-- Line 325: `pdr`, in percent; `none` would be a division by zero. -/
def pdr (stats : List FlowStats) : Option ℚ :=
  if (totals stats).totalTxPackets > 0 then
    (divide ((totals stats).totalRxPackets : ℚ) ((totals stats).totalTxPackets : ℚ)).map
      (fun q => q * 100)
  else some 0

/-- The spec's `total_tx`: the sum of the tx counts of all flows. -/
def specTotalTx (stats : List FlowStats) : Nat :=
  (stats.map FlowStats.txPackets).sum

/-- The spec's `total_rx`: the sum of the rx counts of all flows. -/
def specTotalRx (stats : List FlowStats) : Nat :=
  (stats.map FlowStats.rxPackets).sum

/-- The spec's `mean_delay_ms`: the sum of the delay-sums of all flows, divided
by `total_rx`, times 1000, and 0 when `total_rx` is 0. -/
def specMeanDelayMs (stats : List FlowStats) : ℚ :=
  if specTotalRx stats > 0 then
    (stats.map FlowStats.delaySum).sum / (specTotalRx stats : ℚ) * 1000
  else 0

/-- Modelled from the spec: what the Flow Recorder (the `FlowMonitor` of ns-3,
not part of the sources) guarantees of every flow.  `on_receive` is invoked when,
and only when, a transmitted packet arrives, and a lost packet leaves the tx
count incremented and the rx count untouched: no flow has more received than
transmitted packets. -/
def ReceivedWereSent (stats : List FlowStats) : Prop :=
  ∀ f ∈ stats, f.rxPackets ≤ f.txPackets

/-- Modelled from the spec: what the Flow Recorder (the `FlowMonitor` of ns-3,
not part of the sources) guarantees of every flow.  Delay is added to a flow's
delay sum in `on_receive` only, for received packets: a flow with no received
packet has delay sum 0. -/
def DelayOnlyOnReceive (stats : List FlowStats) : Prop :=
  ∀ f ∈ stats, f.rxPackets = 0 → f.delaySum = 0

/-- The sum of the delay-sums of the flows with at least one received packet. -/
def receivedDelaySum (stats : List FlowStats) : ℚ :=
  ((stats.filter (fun f => decide (f.rxPackets > 0))).map FlowStats.delaySum).sum

/-! # Theorems -/

/-! ## Effect of the member functions, field by field -/

theorem sendBinData_fill (w : World) :
    (SendBinData w).app.m_fillLevel
      = min 100 ((w.app.m_fillLevel + (w.rng w.randCalls % 15 + 5)) % 2 ^ 32) := rfl

theorem sendBinData_queue (w : World) :
    (SendBinData w).queue
      = w.queue ++ [{ uid := w.nextUid, ts := w.now + w.app.m_interval,
                      action := Action.sendBinData }] := rfl

theorem sendBinData_sent (w : World) :
    (SendBinData w).sent = w.sent ++ [(w.now, w.app.m_fillLevel)] := rfl

theorem stopApplication_fill (w : World) :
    (StopApplication w).app.m_fillLevel = w.app.m_fillLevel := by
  unfold StopApplication Cancel
  cases hs : w.app.m_socket <;> cases he : w.app.m_sendEvent <;> simp [hs, he]

theorem sendBinData_fill_le (w : World) : (SendBinData w).app.m_fillLevel ≤ 100 := by
  rw [sendBinData_fill]; exact Nat.min_le_left _ _

theorem sendBinData_fill_ge (w : World) (h : w.app.m_fillLevel ≤ 100) :
    w.app.m_fillLevel ≤ (SendBinData w).app.m_fillLevel := by
  rw [sendBinData_fill]
  omega

/-! ## The one-bin scenario -/

theorem seconds_add (t a b : Nat) : Seconds t a + Seconds t b = Seconds t (a + b) := by
  unfold Seconds; rw [Nat.add_mul]

theorem seconds_le (t a b : Nat) (ht : 0 < t) : Seconds t a ≤ Seconds t b ↔ a ≤ b := by
  unfold Seconds; exact ⟨fun h => Nat.le_of_mul_le_mul_right h ht, fun h => Nat.mul_le_mul_right t h⟩

theorem runUntil_nil (fuel stopTime : Nat) (w : World) (h : w.queue = []) :
    runUntil fuel stopTime w = some w := by
  cases fuel <;> simp [runUntil, h, earliest]

theorem scenario_log (tick : Nat) (ht : 0 < tick) (rng : Nat → Nat) (binId fuel : Nat) :
    (runUntil (fuel + 4) (Seconds tick 65) (oneBinScenario tick rng binId)).map (fun w => w.sent)
      = some [(Seconds tick 2, rng 0 % 40 + 20),
              (Seconds tick 32, rng 0 % 40 + 20 + (rng 1 % 15 + 5)),
              (Seconds tick 62, rng 0 % 40 + 20 + (rng 1 % 15 + 5) + (rng 2 % 15 + 5))] := by
  have h1 : min 100 ((rng 0 % 40 + 20 + (rng 1 % 15 + 5)) % 4294967296)
      = rng 0 % 40 + 20 + (rng 1 % 15 + 5) := by omega
  have h2 : min 100 ((rng 0 % 40 + 20 + (rng 1 % 15 + 5) + (rng 2 % 15 + 5)) % 4294967296)
      = rng 0 % 40 + 20 + (rng 1 % 15 + 5) + (rng 2 % 15 + 5) := by omega
  simp [runUntil, oneBinScenario, initWorld, Schedule, earliest, fireEvent, invoke,
    StartApplication, SendBinData, rand, StopApplication, Cancel, runUntil_nil, h1, h2,
    seconds_add, seconds_le _ _ _ ht]

/-- C2: one bin with interval 30 s, started at 2 s and stopped at 65 s, run to
65 s with any fuel of at least 4 events and any outcome of the random draws:
the run completes, `SendBinData` has executed exactly three times, at 2 s, 32 s
and 62 s, the three reported fill levels are strictly increasing and each of
the two differences lies in [5,20). -/
theorem C2_one_bin_three_sends (tick : Nat) (ht : 0 < tick) (rng : Nat → Nat)
    (binId fuel : Nat) :
    ∃ f0 f1 f2 : Nat,
      (runUntil (fuel + 4) (Seconds tick 65) (oneBinScenario tick rng binId)).map
          (fun w => w.sent)
        = some [(Seconds tick 2, f0), (Seconds tick 32, f1), (Seconds tick 62, f2)] ∧
      f0 < f1 ∧ f1 < f2 ∧
      5 ≤ f1 - f0 ∧ f1 - f0 < 20 ∧ 5 ≤ f2 - f1 ∧ f2 - f1 < 20 := by
  refine ⟨_, _, _, scenario_log tick ht rng binId fuel, ?_⟩
  omega

/-- Witness of C2 at the nanosecond resolution with all draws equal to 7. -/
theorem C2_one_bin_three_sends_witness :
    0 < 1000000000 ∧
    ∃ f0 f1 f2 : Nat,
      (runUntil (0 + 4) (Seconds 1000000000 65)
          (oneBinScenario 1000000000 (fun _ => 7) 1)).map (fun w => w.sent)
        = some [(Seconds 1000000000 2, f0), (Seconds 1000000000 32, f1),
                (Seconds 1000000000 62, f2)] ∧
      f0 < f1 ∧ f1 < f2 ∧
      5 ≤ f1 - f0 ∧ f1 - f0 < 20 ∧ 5 ≤ f2 - f1 ∧ f2 - f1 < 20 :=
  ⟨by decide, C2_one_bin_three_sends 1000000000 (by decide) (fun _ => 7) 1 0⟩

/-! ## Pending send events -/

theorem tracked_init (rng : Nat → Nat) (binId interval : Nat) :
    Tracked (initWorld rng binId interval) :=
  Or.inl ⟨rfl, by simp [initWorld]⟩

theorem tracked_pending (w : World) (h : Tracked w) : pendingSends w ≤ 1 := by
  unfold pendingSends
  rcases h with ⟨hq, _⟩ | ⟨e, hq, _, _⟩
  · simp [hq]
  · rw [hq]; exact Nat.le_trans (List.length_filter_le _ _) (by simp)

theorem tracked_idle (w : World) (h : Tracked w) (hp : pendingSends w = 0) :
    w.queue = [] ∧ w.app.m_socket ≠ SocketState.connected := by
  rcases h with h | ⟨e, hq, ha, _⟩
  · exact h
  · simp [pendingSends, hq, ha] at hp

theorem tracked_sendBinData (w : World) (hq : w.queue = []) : Tracked (SendBinData w) :=
  Or.inr ⟨{ uid := w.nextUid, ts := w.now + w.app.m_interval, action := Action.sendBinData },
    by rw [sendBinData_queue, hq]; rfl, rfl, rfl⟩

theorem tracked_start (w : World) (hq : w.queue = []) : Tracked (StartApplication w) :=
  tracked_sendBinData _ hq

theorem stopApplication_queue (w : World) :
    (StopApplication w).queue = (Cancel w w.app.m_sendEvent).queue := by
  unfold StopApplication Cancel
  cases hs : w.app.m_socket <;> cases he : w.app.m_sendEvent <;> simp [hs, he]

theorem stopApplication_socket (w : World) :
    (StopApplication w).app.m_socket ≠ SocketState.connected := by
  unfold StopApplication Cancel
  cases hs : w.app.m_socket <;> cases he : w.app.m_sendEvent <;> simp [hs, he]

theorem stopApplication_sent (w : World) : (StopApplication w).sent = w.sent := by
  unfold StopApplication Cancel
  cases hs : w.app.m_socket <;> cases he : w.app.m_sendEvent <;> simp [hs, he]

theorem stop_queue_nil (w : World) (h : Tracked w) : (StopApplication w).queue = [] := by
  rw [stopApplication_queue]
  rcases h with ⟨hq, _⟩ | ⟨e, hq, _, he⟩
  · cases hh : w.app.m_sendEvent <;> simp [Cancel, hq]
  · simp [Cancel, he, hq]

theorem tracked_stop (w : World) (h : Tracked w) : Tracked (StopApplication w) :=
  Or.inl ⟨stop_queue_nil w h, stopApplication_socket w⟩

theorem tracked_fire (w : World) (h : Tracked w) : Tracked (fire w) := by
  rcases h with ⟨hq, hs⟩ | ⟨e, hq, ha, he⟩
  · have : fire w = w := by simp [fire, hq, earliest]
    rw [this]; exact Or.inl ⟨hq, hs⟩
  · have : fire w = SendBinData { w with now := e.ts, queue := [] } := by
      simp [fire, hq, earliest, fireEvent, ha, invoke]
    rw [this]; exact tracked_sendBinData _ rfl

theorem tracked_applyOp (w : World) (op : Op) (h : Tracked w)
    (hd : op = Op.start → pendingSends w = 0) : Tracked (applyOp w op) := by
  cases op
  · exact tracked_start w (tracked_idle w h (hd rfl)).1
  · exact tracked_fire w h
  · exact tracked_stop w h

theorem startsWhenIdle_cons (w : World) (op : Op) (ops : List Op)
    (h : startsWhenIdle w (op :: ops) = true) :
    (op = Op.start → pendingSends w = 0) ∧ startsWhenIdle (applyOp w op) ops = true := by
  simp only [startsWhenIdle, Bool.and_eq_true, Bool.or_eq_true, bne_iff_ne, beq_iff_eq] at h
  refine ⟨fun hop => ?_, h.2⟩
  rcases h.1 with h1 | h1
  · exact absurd hop h1
  · exact h1

theorem tracked_exec (ops : List Op) :
    ∀ w : World, Tracked w → startsWhenIdle w ops = true → Tracked (exec w ops) := by
  induction ops with
  | nil => intro w h _; exact h
  | cons op ops ih =>
    intro w h hd
    have hc := startsWhenIdle_cons w op ops hd
    exact ih _ (tracked_applyOp w op h hc.1) hc.2

theorem tracked_exec_take (ops : List Op) :
    ∀ (w : World) (n : Nat), Tracked w → startsWhenIdle w ops = true →
      Tracked (exec w (ops.take n)) := by
  induction ops with
  | nil => intro w n h _; simpa [exec] using h
  | cons op ops ih =>
    intro w n h hd
    have hc := startsWhenIdle_cons w op ops hd
    cases n with
    | zero => simpa [exec] using h
    | succ n => exact ih _ n (tracked_applyOp w op h hc.1) hc.2

theorem stop_idle_eq (w : World) (hq : w.queue = [])
    (hs : w.app.m_socket ≠ SocketState.connected) : StopApplication w = w := by
  obtain ⟨now, uid, queue, rng, calls, ⟨sock, bin, fill, ev, itv⟩, sent⟩ := w
  simp only at hq hs
  subst hq
  cases sock <;> cases ev <;> simp_all [StopApplication, Cancel]

/-- C3 (counterexample): a second `start` on an Armed agent leaves two send
events pending, where one was pending before it. -/
theorem C3_repeated_start_counterexample :
    pendingSends (exec (initWorld (fun _ => 0) 1 30) [Op.start]) = 1 ∧
      ¬ pendingSends (exec (initWorld (fun _ => 0) 1 30) [Op.start, Op.start]) ≤ 1 := by
  decide

/-- C3 (amended): along every sequence of start, fire and stop operations in
which `start` is only executed while no send event of the agent is pending,
at most one send event of the agent is pending after each operation. -/
theorem C3_single_pending_send (rng : Nat → Nat) (binId interval : Nat) (ops : List Op)
    (n : Nat) (h : startsWhenIdle (initWorld rng binId interval) ops = true) :
    pendingSends (exec (initWorld rng binId interval) (ops.take n)) ≤ 1 :=
  tracked_pending _ (tracked_exec_take ops _ n (tracked_init rng binId interval) h)

/-- Witness of C3 (amended): start, fire, stop, start again, fire. -/
theorem C3_single_pending_send_witness :
    startsWhenIdle (initWorld (fun _ => 0) 1 30)
        [Op.start, Op.fire, Op.stop, Op.start, Op.fire] = true ∧
      pendingSends (exec (initWorld (fun _ => 0) 1 30)
        ([Op.start, Op.fire, Op.stop, Op.start, Op.fire].take 5)) ≤ 1 :=
  ⟨by decide, C3_single_pending_send (fun _ => 0) 1 30 _ 5 (by decide)⟩

/-- C4 (counterexample): after start, start, stop the log holds two packets;
running the scheduler on to time 65 (interval 30) executes `SendBinData` twice
more, at 30 and at 60: the event scheduled by the first start was not
cancelled. -/
theorem C4_orphan_send_counterexample :
    (StopApplication (exec (initWorld (fun _ => 0) 1 30) [Op.start, Op.start])).sent
        = [(0, 20), (0, 20)] ∧
      (runUntil 2 65
          (StopApplication (exec (initWorld (fun _ => 0) 1 30) [Op.start, Op.start]))).map
          (fun w => w.sent)
        = some [(0, 20), (0, 20), (30, 25), (60, 30)] := by
  decide

/-- C4 (amended): in every state reached by start, fire and stop operations in
which `start` is only executed while no send event is pending, once
`StopApplication` has executed, running the scheduler to any time with any
fuel returns at once with the state unchanged, so `SendBinData` executes zero
further times and the log of sent packets is the one before the stop; and
`StopApplication` on an agent with no pending send event changes nothing. -/
theorem C4_no_send_after_stop (rng : Nat → Nat) (binId interval : Nat) (ops : List Op)
    (fuel stopTime : Nat) (h : startsWhenIdle (initWorld rng binId interval) ops = true) :
    runUntil fuel stopTime (StopApplication (exec (initWorld rng binId interval) ops))
        = some (StopApplication (exec (initWorld rng binId interval) ops)) ∧
      (StopApplication (exec (initWorld rng binId interval) ops)).sent
        = (exec (initWorld rng binId interval) ops).sent ∧
      (pendingSends (exec (initWorld rng binId interval) ops) = 0 →
        StopApplication (exec (initWorld rng binId interval) ops)
          = exec (initWorld rng binId interval) ops) := by
  have ht := tracked_exec ops _ (tracked_init rng binId interval) h
  refine ⟨runUntil_nil _ _ _ (stop_queue_nil _ ht), stopApplication_sent _, fun hp => ?_⟩
  have hi := tracked_idle _ ht hp
  exact stop_idle_eq _ hi.1 hi.2

/-- Witness of C4 (amended): start, two fires, then stop and run to time 1000. -/
theorem C4_no_send_after_stop_witness :
    startsWhenIdle (initWorld (fun _ => 0) 1 30) [Op.start, Op.fire, Op.fire] = true ∧
      (runUntil 5 1000
          (StopApplication (exec (initWorld (fun _ => 0) 1 30) [Op.start, Op.fire, Op.fire]))
        = some (StopApplication (exec (initWorld (fun _ => 0) 1 30)
            [Op.start, Op.fire, Op.fire])) ∧
      (StopApplication (exec (initWorld (fun _ => 0) 1 30) [Op.start, Op.fire, Op.fire])).sent
        = (exec (initWorld (fun _ => 0) 1 30) [Op.start, Op.fire, Op.fire]).sent ∧
      (pendingSends (exec (initWorld (fun _ => 0) 1 30) [Op.start, Op.fire, Op.fire]) = 0 →
        StopApplication (exec (initWorld (fun _ => 0) 1 30) [Op.start, Op.fire, Op.fire])
          = exec (initWorld (fun _ => 0) 1 30) [Op.start, Op.fire, Op.fire])) :=
  ⟨by decide, C4_no_send_after_stop (fun _ => 0) 1 30 _ 5 1000 (by decide)⟩


/-! ## Fill levels along a run -/

theorem earliest_mem (l : List Event) (e : Event) (h : earliest l = some e) : e ∈ l := by
  induction l generalizing e with
  | nil => simp [earliest] at h
  | cons a l ih =>
    unfold earliest at h
    cases hb : earliest l with
    | none =>
      rw [hb] at h
      simp only [Option.some.injEq] at h
      rw [← h]; exact List.mem_cons_self _ _
    | some b =>
      rw [hb] at h
      by_cases hle : a.ts ≤ b.ts
      · simp only [hle, if_true, Option.some.injEq] at h
        rw [← h]; exact List.mem_cons_self _ _
      · simp only [hle, if_false, Option.some.injEq] at h
        rw [← h]; exact List.mem_cons_of_mem _ (ih b hb)

theorem fire_cases (w : World) (hq : ∀ e ∈ w.queue, e.action = Action.sendBinData) :
    fire w = w ∨ ∃ v : World, fire w = SendBinData v ∧ v.sent = w.sent ∧ v.app = w.app ∧
      ∀ e ∈ v.queue, e ∈ w.queue := by
  unfold fire
  cases he : earliest w.queue with
  | none => exact Or.inl rfl
  | some e =>
    refine Or.inr ⟨{ w with now := e.ts, queue := w.queue.filter (fun x => x.uid != e.uid) },
      ?_, rfl, rfl, fun x hx => (List.mem_filter.mp hx).1⟩
    show invoke _ e.action = _
    rw [hq e (earliest_mem _ _ he)]
    rfl

theorem stopApplication_queue_subset (w : World) :
    ∀ e ∈ (StopApplication w).queue, e ∈ w.queue := by
  intro e he
  rw [stopApplication_queue] at he
  unfold Cancel at he
  cases hh : w.app.m_sendEvent with
  | none => rw [hh] at he; exact he
  | some u => rw [hh] at he; exact (List.mem_filter.mp he).1

theorem sane_init (rng : Nat → Nat) (binId interval : Nat) :
    Sane (initWorld rng binId interval) :=
  ⟨Nat.zero_le _, by simp [initWorld], by simp [initWorld]⟩

theorem sane_send (w : World) (h : Sane w) : Sane (SendBinData w) := by
  refine ⟨sendBinData_fill_le w, ?_, ?_⟩
  · intro e he
    rw [sendBinData_queue, List.mem_append, List.mem_singleton] at he
    rcases he with he | he
    · exact h.2.1 e he
    · rw [he]
  · intro p hp
    rw [sendBinData_sent, List.mem_append, List.mem_singleton] at hp
    rcases hp with hp | hp
    · exact h.2.2 p hp
    · rw [hp]; exact h.1

theorem sane_start (w : World) (h : Sane w) : Sane (StartApplication w) := by
  apply sane_send
  refine ⟨?_, h.2.1, h.2.2⟩
  show w.rng w.randCalls % 40 + 20 ≤ 100
  omega

theorem sane_stop (w : World) (h : Sane w) : Sane (StopApplication w) := by
  refine ⟨?_, fun e he => h.2.1 e (stopApplication_queue_subset w e he), ?_⟩
  · rw [stopApplication_fill]; exact h.1
  · rw [stopApplication_sent]; exact h.2.2

theorem sane_fire (w : World) (h : Sane w) : Sane (fire w) := by
  rcases fire_cases w h.2.1 with hf | ⟨v, hf, hs, ha, hq⟩
  · rw [hf]; exact h
  · rw [hf]
    apply sane_send
    exact ⟨by rw [ha]; exact h.1, fun e he => h.2.1 e (hq e he), by rw [hs]; exact h.2.2⟩

theorem sane_applyOp (w : World) (op : Op) (h : Sane w) : Sane (applyOp w op) := by
  cases op
  · exact sane_start w h
  · exact sane_fire w h
  · exact sane_stop w h

theorem sane_exec (ops : List Op) : ∀ w : World, Sane w → Sane (exec w ops) := by
  induction ops with
  | nil => intro w h; exact h
  | cons op ops ih => intro w h; exact ih _ (sane_applyOp w op h)

theorem levelsFrom_send (n : Nat) (w : World) (hn : n ≤ w.sent.length) :
    levelsFrom n (SendBinData w) = levelsFrom n w ++ [w.app.m_fillLevel] := by
  unfold levelsFrom
  rw [sendBinData_sent, List.drop_append_of_le_length hn, List.map_append]
  rfl

theorem mono_send (n : Nat) (w : World) (hs : w.app.m_fillLevel ≤ 100) (h : Mono n w) :
    Mono n (SendBinData w) := by
  have hge := sendBinData_fill_ge w hs
  refine ⟨?_, ?_, ?_⟩
  · rw [sendBinData_sent, List.length_append]; exact Nat.le_trans h.1 (Nat.le_add_right _ _)
  · rw [levelsFrom_send n w h.1, List.pairwise_append]
    refine ⟨h.2.1, List.pairwise_singleton _ _, ?_⟩
    intro a ha b hb
    rw [List.mem_singleton] at hb
    rw [hb]; exact h.2.2 a ha
  · intro f hf
    rw [levelsFrom_send n w h.1, List.mem_append, List.mem_singleton] at hf
    rcases hf with hf | hf
    · exact Nat.le_trans (h.2.2 f hf) hge
    · rw [hf]; exact hge

theorem mono_of_eq (n : Nat) (w v : World) (hs : v.sent = w.sent) (ha : v.app = w.app)
    (h : Mono n w) : Mono n v := by
  unfold Mono levelsFrom at *
  rw [hs, ha]; exact h

theorem mono_start (w : World) : Mono w.sent.length (StartApplication w) := by
  apply mono_send
  · show w.rng w.randCalls % 40 + 20 ≤ 100
    omega
  · refine ⟨Nat.le_refl _, ?_, ?_⟩
    · show List.Pairwise _ ((w.sent.drop w.sent.length).map Prod.snd)
      simp
    · intro f hf
      have : levelsFrom w.sent.length
          { w with randCalls := w.randCalls + 1,
                   app := { w.app with m_socket := SocketState.connected,
                                       m_fillLevel := w.rng w.randCalls % 40 + 20 } } = [] := by
        show (w.sent.drop w.sent.length).map Prod.snd = []
        simp
      exact absurd hf (by rw [this]; exact List.not_mem_nil f)

theorem mono_applyOp (n : Nat) (w : World) (op : Op) (hop : op ≠ Op.start) (hs : Sane w)
    (h : Mono n w) : Mono n (applyOp w op) := by
  cases op
  · exact absurd rfl hop
  · show Mono n (fire w)
    rcases fire_cases w hs.2.1 with hf | ⟨v, hf, hsent, happ, _⟩
    · rw [hf]; exact h
    · rw [hf]
      exact mono_send n v (by rw [happ]; exact hs.1) (mono_of_eq n w v hsent happ h)
  · show Mono n (StopApplication w)
    unfold Mono levelsFrom at *
    rw [stopApplication_sent, stopApplication_fill]; exact h

theorem mono_exec (n : Nat) (ops : List Op) :
    ∀ w : World, Op.start ∉ ops → Sane w → Mono n w → Mono n (exec w ops) := by
  induction ops with
  | nil => intro w _ _ h; exact h
  | cons op ops ih =>
    intro w hno hs h
    have hop : op ≠ Op.start := fun e => hno (by rw [e]; exact List.mem_cons_self _ _)
    have hrest : Op.start ∉ ops := fun e => hno (List.mem_cons_of_mem _ e)
    exact ih _ hrest (sane_applyOp w op hs) (mono_applyOp n w op hop hs h)

/-- C1 (counterexample): start, fire, stop, start again, with every draw 0: the
three sends report the levels 20, 25 and 20, so the level reported by the third
send is below the one reported by the second. -/
theorem C1_restart_counterexample :
    levelsFrom 0 (exec (initWorld (fun _ => 0) 1 30) [Op.start, Op.fire, Op.stop, Op.start])
        = [20, 25, 20] ∧
      ¬ List.Pairwise (fun a b => a ≤ b)
          (levelsFrom 0
            (exec (initWorld (fun _ => 0) 1 30) [Op.start, Op.fire, Op.stop, Op.start])) := by
  decide

/-- C1 (amended): for every outcome of the random draws and every state reached
by any start, fire and stop operations `ops₁`: one execution of `SendBinData`
there leaves the fill level at least what it was and at most 100; and when the
agent is started there and any operations `ops₂` other than a start follow, the
levels reported by the sends of that run, the one `StartApplication` makes
included, are in non-decreasing order, none is above the current fill level,
and no level anywhere in the log nor the current one exceeds 100. -/
theorem C1_fill_level_monotone_within_run (rng : Nat → Nat) (binId interval : Nat)
    (ops₁ ops₂ : List Op) (h : Op.start ∉ ops₂) :
    (exec (initWorld rng binId interval) ops₁).app.m_fillLevel
        ≤ (SendBinData (exec (initWorld rng binId interval) ops₁)).app.m_fillLevel ∧
      (SendBinData (exec (initWorld rng binId interval) ops₁)).app.m_fillLevel ≤ 100 ∧
      List.Pairwise (fun a b => a ≤ b)
        (levelsFrom (exec (initWorld rng binId interval) ops₁).sent.length
          (exec (StartApplication (exec (initWorld rng binId interval) ops₁)) ops₂)) ∧
      (∀ f ∈ levelsFrom (exec (initWorld rng binId interval) ops₁).sent.length
          (exec (StartApplication (exec (initWorld rng binId interval) ops₁)) ops₂),
        f ≤ (exec (StartApplication (exec (initWorld rng binId interval) ops₁))
          ops₂).app.m_fillLevel) ∧
      (exec (StartApplication (exec (initWorld rng binId interval) ops₁))
          ops₂).app.m_fillLevel ≤ 100 ∧
      (∀ f ∈ levelsFrom 0
          (exec (StartApplication (exec (initWorld rng binId interval) ops₁)) ops₂),
        f ≤ 100) := by
  have hv := sane_exec ops₁ _ (sane_init rng binId interval)
  have hstart := sane_start _ hv
  have hrun := sane_exec ops₂ _ hstart
  have hm := mono_exec _ ops₂ _ h hstart (mono_start _)
  refine ⟨sendBinData_fill_ge _ hv.1, sendBinData_fill_le _, hm.2.1, hm.2.2, hrun.1, ?_⟩
  intro f hf
  unfold levelsFrom at hf
  rw [List.drop_zero, List.mem_map] at hf
  obtain ⟨p, hp, rfl⟩ := hf
  exact hrun.2.2 p hp

/-- Witness of C1 (amended): a run of a start and three fires after an earlier
run that was stopped. -/
theorem C1_fill_level_monotone_within_run_witness :
    Op.start ∉ [Op.fire, Op.fire, Op.stop, Op.fire] ∧
      List.Pairwise (fun a b => a ≤ b)
        (levelsFrom (exec (initWorld (fun _ => 14) 1 30) [Op.start, Op.fire, Op.stop]).sent.length
          (exec (StartApplication (exec (initWorld (fun _ => 14) 1 30)
            [Op.start, Op.fire, Op.stop])) [Op.fire, Op.fire, Op.stop, Op.fire])) :=
  ⟨by decide,
   (C1_fill_level_monotone_within_run (fun _ => 14) 1 30 [Op.start, Op.fire, Op.stop]
      [Op.fire, Op.fire, Op.stop, Op.fire] (by decide)).2.2.1⟩

/-! ## Attachment of the bins -/

theorem foldl_attach (l : List Nat) (init : List (Nat × Nat)) :
    l.foldl (fun attached i => attached ++ [(i, i % 2)]) init
      = init ++ l.map (fun i => (i, i % 2)) := by
  induction l generalizing init with
  | nil => simp
  | cons a l ih => simp [ih]

theorem attachBins_eq_map (n : Nat) :
    attachBins n = (List.range n).map (fun i => (i, i % 2)) := by
  unfold attachBins
  rw [foldl_attach]; rfl

theorem attachBins_succ (n : Nat) : attachBins (n + 1) = attachBins n ++ [(n, n % 2)] := by
  simp [attachBins_eq_map, List.range_succ]

theorem binsOn_succ (enb n : Nat) :
    binsOn enb (n + 1) = binsOn enb n + (if n % 2 = enb then 1 else 0) := by
  unfold binsOn
  rw [attachBins_succ, List.filter_append, List.length_append]
  by_cases h : n % 2 = enb <;> simp [h]

theorem binsOn_closed (n : Nat) : binsOn 0 n = (n + 1) / 2 ∧ binsOn 1 n = n / 2 := by
  induction n with
  | zero => exact ⟨rfl, rfl⟩
  | succ n ih =>
    rw [binsOn_succ, binsOn_succ, ih.1, ih.2]
    rcases Nat.mod_two_eq_zero_or_one n with h | h <;> simp [h] <;> omega

/-- C5: with `n` bins, bin `i < n` is the `i`-th one the loop attaches and it goes
to base station `i mod 2`, 2 being the number of base stations; the loop makes
`n` attachments; the bin counts of the two stations differ by at most one; and
with 50 bins each station has exactly 25. -/
theorem C5_round_robin_attachment (n i : Nat) (h : i < n) :
    (attachBins n)[i]? = some (i, i % nEnbs) ∧
      (attachBins n).length = n ∧
      binsOn 1 n ≤ binsOn 0 n ∧ binsOn 0 n ≤ binsOn 1 n + 1 ∧
      binsOn 0 50 = 25 ∧ binsOn 1 50 = 25 := by
  have hc := binsOn_closed n
  refine ⟨?_, ?_, ?_, ?_, ?_, ?_⟩
  · simp [attachBins_eq_map, nEnbs, List.getElem?_range, h]
  · simp [attachBins_eq_map]
  · omega
  · omega
  · exact (binsOn_closed 50).1
  · exact (binsOn_closed 50).2

/-- Witness of C5: bin 7 of 50. -/
theorem C5_round_robin_attachment_witness :
    7 < 50 ∧
      ((attachBins 50)[7]? = some (7, 7 % nEnbs) ∧
      (attachBins 50).length = 50 ∧
      binsOn 1 50 ≤ binsOn 0 50 ∧ binsOn 0 50 ≤ binsOn 1 50 + 1 ∧
      binsOn 0 50 = 25 ∧ binsOn 1 50 = 25) :=
  ⟨by decide, C5_round_robin_attachment 50 7 (by decide)⟩


/-! ## Flow statistics -/

theorem foldl_accumulate_rx (l : List FlowStats) :
    ∀ t : Totals, t.totalRxPackets < 2 ^ 64 →
      (l.foldl accumulate t).totalRxPackets
        = (t.totalRxPackets + (l.map FlowStats.rxPackets).sum) % 2 ^ 64 := by
  induction l with
  | nil => intro t ht; simp at ht ⊢; omega
  | cons a l ih =>
    intro t _
    rw [List.foldl_cons, ih _ (Nat.mod_lt _ (by norm_num))]
    simp only [accumulate, List.map_cons, List.sum_cons]
    omega

theorem foldl_accumulate_tx (l : List FlowStats) :
    ∀ t : Totals, t.totalTxPackets < 2 ^ 64 →
      (l.foldl accumulate t).totalTxPackets
        = (t.totalTxPackets + (l.map FlowStats.txPackets).sum) % 2 ^ 64 := by
  induction l with
  | nil => intro t ht; simp at ht ⊢; omega
  | cons a l ih =>
    intro t _
    rw [List.foldl_cons, ih _ (Nat.mod_lt _ (by norm_num))]
    simp only [accumulate, List.map_cons, List.sum_cons]
    omega

theorem foldl_accumulate_delay (l : List FlowStats) :
    ∀ t : Totals, (l.foldl accumulate t).totalDelay = t.totalDelay + receivedDelaySum l := by
  induction l with
  | nil => intro t; simp [receivedDelaySum]
  | cons a l ih =>
    intro t
    rw [List.foldl_cons, ih]
    unfold receivedDelaySum
    by_cases h : a.rxPackets > 0
    · simp [accumulate, h, List.filter_cons, add_assoc]
    · simp [accumulate, h, List.filter_cons]

theorem totals_rx (stats : List FlowStats) :
    (totals stats).totalRxPackets = specTotalRx stats % 2 ^ 64 := by
  unfold totals specTotalRx
  rw [foldl_accumulate_rx _ _ (by norm_num)]
  simp

theorem totals_tx (stats : List FlowStats) :
    (totals stats).totalTxPackets = specTotalTx stats % 2 ^ 64 := by
  unfold totals specTotalTx
  rw [foldl_accumulate_tx _ _ (by norm_num)]
  simp

theorem totals_delay (stats : List FlowStats) :
    (totals stats).totalDelay = receivedDelaySum stats := by
  unfold totals
  rw [foldl_accumulate_delay]
  simp

theorem sum_lt_of_bounded (l : List Nat) (h : ∀ x ∈ l, x < 2 ^ 32) :
    l.sum ≤ l.length * (2 ^ 32 - 1) := by
  induction l with
  | nil => simp
  | cons a l ih =>
    have ha := h a (List.mem_cons_self _ _)
    have hl := ih (fun x hx => h x (List.mem_cons_of_mem _ hx))
    simp only [List.sum_cons, List.length_cons]
    rw [Nat.add_mul, Nat.one_mul]
    omega

theorem wellTyped_rx (stats : List FlowStats) (hw : WellTyped stats) :
    specTotalRx stats < 2 ^ 64 := by
  have h := sum_lt_of_bounded (stats.map FlowStats.rxPackets) (by
    intro x hx
    rw [List.mem_map] at hx
    obtain ⟨f, hf, rfl⟩ := hx
    exact (hw.2 f hf).2)
  rw [List.length_map] at h
  have h2 : stats.length * (2 ^ 32 - 1) ≤ 2 ^ 32 * (2 ^ 32 - 1) :=
    Nat.mul_le_mul_right _ hw.1
  unfold specTotalRx
  have h3 : 2 ^ 32 * (2 ^ 32 - 1) < 2 ^ 64 := by norm_num
  omega

theorem wellTyped_tx (stats : List FlowStats) (hw : WellTyped stats) :
    specTotalTx stats < 2 ^ 64 := by
  have h := sum_lt_of_bounded (stats.map FlowStats.txPackets) (by
    intro x hx
    rw [List.mem_map] at hx
    obtain ⟨f, hf, rfl⟩ := hx
    exact (hw.2 f hf).1)
  rw [List.length_map] at h
  have h2 : stats.length * (2 ^ 32 - 1) ≤ 2 ^ 32 * (2 ^ 32 - 1) :=
    Nat.mul_le_mul_right _ hw.1
  unfold specTotalTx
  have h3 : 2 ^ 32 * (2 ^ 32 - 1) < 2 ^ 64 := by norm_num
  omega

theorem totals_rx_exact (stats : List FlowStats) (hw : WellTyped stats) :
    (totals stats).totalRxPackets = specTotalRx stats := by
  rw [totals_rx, Nat.mod_eq_of_lt (wellTyped_rx stats hw)]

theorem totals_tx_exact (stats : List FlowStats) (hw : WellTyped stats) :
    (totals stats).totalTxPackets = specTotalTx stats := by
  rw [totals_tx, Nat.mod_eq_of_lt (wellTyped_tx stats hw)]

theorem pdr_eq (stats : List FlowStats) :
    pdr stats = some (if (totals stats).totalTxPackets > 0 then
      ((totals stats).totalRxPackets : ℚ) / ((totals stats).totalTxPackets : ℚ) * 100 else 0) := by
  unfold pdr divide
  by_cases h : (totals stats).totalTxPackets > 0
  · have h2 : ((totals stats).totalTxPackets : ℚ) ≠ 0 := by
      exact_mod_cast Nat.pos_iff_ne_zero.mp h
    simp [h, h2]
  · simp [h]

theorem avgDelay_eq (stats : List FlowStats) :
    avgDelay stats = some (if (totals stats).totalRxPackets > 0 then
      (totals stats).totalDelay / ((totals stats).totalRxPackets : ℚ) * 1000 else 0) := by
  unfold avgDelay divide
  by_cases h : (totals stats).totalRxPackets > 0
  · have h2 : ((totals stats).totalRxPackets : ℚ) ≠ 0 := by
      exact_mod_cast Nat.pos_iff_ne_zero.mp h
    simp [h, h2]
  · simp [h]


/-- C6: for a flow container as its type allows, the computed totals are the
sums of the per-flow tx and rx counts; `pdr` is `total_rx / total_tx * 100` when
`total_tx > 0` and 0 when `total_tx = 0`; and it never reports a division by
zero. -/
theorem C6_pdr_formula (stats : List FlowStats) (hw : WellTyped stats) :
    (totals stats).totalTxPackets = specTotalTx stats ∧
      (totals stats).totalRxPackets = specTotalRx stats ∧
      (specTotalTx stats > 0 →
        pdr stats = some ((specTotalRx stats : ℚ) / (specTotalTx stats : ℚ) * 100)) ∧
      (specTotalTx stats = 0 → pdr stats = some 0) ∧
      pdr stats ≠ none := by
  have htx := totals_tx_exact stats hw
  have hrx := totals_rx_exact stats hw
  refine ⟨htx, hrx, ?_, ?_, ?_⟩
  · intro h
    rw [pdr_eq, htx, hrx, if_pos h]
  · intro h
    rw [pdr_eq, htx, h]
    simp
  · rw [pdr_eq]; simp

/-- Witness of C6: two flows, 4 sent and 3 received in the first, none in the
second. -/
theorem C6_pdr_formula_witness :
    WellTyped [{ txPackets := 4, rxPackets := 3, delaySum := 1 },
               { txPackets := 0, rxPackets := 0, delaySum := 0 }] ∧
      (specTotalTx [{ txPackets := 4, rxPackets := 3, delaySum := 1 },
                    { txPackets := 0, rxPackets := 0, delaySum := 0 }] > 0 →
        pdr [{ txPackets := 4, rxPackets := 3, delaySum := 1 },
             { txPackets := 0, rxPackets := 0, delaySum := 0 }]
          = some ((specTotalRx [{ txPackets := 4, rxPackets := 3, delaySum := 1 },
                                { txPackets := 0, rxPackets := 0, delaySum := 0 }] : ℚ)
              / (specTotalTx [{ txPackets := 4, rxPackets := 3, delaySum := 1 },
                              { txPackets := 0, rxPackets := 0, delaySum := 0 }] : ℚ) * 100)) :=
  ⟨by decide,
   (C6_pdr_formula [{ txPackets := 4, rxPackets := 3, delaySum := 1 },
                    { txPackets := 0, rxPackets := 0, delaySum := 0 }]
      (by decide)).2.2.1⟩

theorem pdr_range_of_totals (stats : List FlowStats)
    (h : (totals stats).totalRxPackets ≤ (totals stats).totalTxPackets) :
    ∃ p : ℚ, pdr stats = some p ∧ 0 ≤ p ∧ p ≤ 100 := by
  refine ⟨_, pdr_eq stats, ?_, ?_⟩
  · split_ifs
    · positivity
    · exact le_refl _
  · split_ifs with hpos
    · have hq : ((totals stats).totalRxPackets : ℚ) ≤ ((totals stats).totalTxPackets : ℚ) := by
        exact_mod_cast h
      have hp : (0 : ℚ) < ((totals stats).totalTxPackets : ℚ) := by exact_mod_cast hpos
      have h1 : ((totals stats).totalRxPackets : ℚ) / ((totals stats).totalTxPackets : ℚ) ≤ 1 :=
        (div_le_one hp).mpr hq
      linarith
    · norm_num

theorem specTotalRx_le_specTotalTx (stats : List FlowStats) (h : ReceivedWereSent stats) :
    specTotalRx stats ≤ specTotalTx stats := by
  induction stats with
  | nil => exact Nat.le_refl _
  | cons a l ih =>
    have ha := h a (List.mem_cons_self _ _)
    have hl := ih (fun f hf => h f (List.mem_cons_of_mem _ hf))
    unfold specTotalRx specTotalTx at *
    simp only [List.map_cons, List.sum_cons]
    omega

/-- C7: for every flow snapshot the recorder can hand over (no flow with more
received than transmitted packets, counters and flow count within their types),
`pdr` is computed and lies in the closed interval [0,100]. -/
theorem C7_pdr_in_range (stats : List FlowStats) (hw : WellTyped stats)
    (hr : ReceivedWereSent stats) :
    ∃ p : ℚ, pdr stats = some p ∧ 0 ≤ p ∧ p ≤ 100 := by
  apply pdr_range_of_totals
  rw [totals_rx_exact stats hw, totals_tx_exact stats hw]
  exact specTotalRx_le_specTotalTx stats hr

/-- Witness of C7: 3 of 4 packets received in one flow, 0 of 2 in another. -/
theorem C7_pdr_in_range_witness :
    WellTyped [{ txPackets := 4, rxPackets := 3, delaySum := 1 },
               { txPackets := 2, rxPackets := 0, delaySum := 0 }] ∧
      ReceivedWereSent [{ txPackets := 4, rxPackets := 3, delaySum := 1 },
                        { txPackets := 2, rxPackets := 0, delaySum := 0 }] ∧
      ∃ p : ℚ, pdr [{ txPackets := 4, rxPackets := 3, delaySum := 1 },
                    { txPackets := 2, rxPackets := 0, delaySum := 0 }] = some p ∧
        0 ≤ p ∧ p ≤ 100 :=
  ⟨by decide,
   by intro f hf; simp at hf; rcases hf with rfl | rfl <;> decide,
   C7_pdr_in_range _ (by decide)
     (by intro f hf; simp at hf; rcases hf with rfl | rfl <;> decide)⟩

theorem receivedDelaySum_uniform (d : ℚ) (l : List FlowStats)
    (hd : ∀ f ∈ l, f.delaySum = (f.rxPackets : ℚ) * d) :
    receivedDelaySum l = (specTotalRx l : ℚ) * d := by
  induction l with
  | nil => simp [receivedDelaySum, specTotalRx]
  | cons a l ih =>
    have ha := hd a (List.mem_cons_self _ _)
    have hl := ih (fun f hf => hd f (List.mem_cons_of_mem _ hf))
    unfold receivedDelaySum specTotalRx at *
    rw [List.map_cons, List.sum_cons, Nat.cast_add, add_mul, ← hl, ← ha]
    by_cases h : a.rxPackets > 0
    · rw [List.filter_cons_of_pos (by simpa using h), List.map_cons, List.sum_cons]
    · have h0 : a.rxPackets = 0 := by omega
      rw [List.filter_cons_of_neg (by simpa using h), ha, h0]
      simp

theorem avgDelay_exact (stats : List FlowStats) (hw : WellTyped stats) :
    avgDelay stats = some (if specTotalRx stats > 0 then
      receivedDelaySum stats / (specTotalRx stats : ℚ) * 1000 else 0) := by
  rw [avgDelay_eq, totals_rx_exact stats hw, totals_delay]

theorem receivedDelaySum_eq_sum (l : List FlowStats) (hd : DelayOnlyOnReceive l) :
    receivedDelaySum l = (l.map FlowStats.delaySum).sum := by
  induction l with
  | nil => simp [receivedDelaySum]
  | cons a l ih =>
    have ha := hd a (List.mem_cons_self _ _)
    have hl := ih (fun f hf => hd f (List.mem_cons_of_mem _ hf))
    unfold receivedDelaySum at *
    rw [List.map_cons, List.sum_cons, ← hl]
    by_cases h : a.rxPackets > 0
    · rw [List.filter_cons_of_pos (by simpa using h), List.map_cons, List.sum_cons]
    · have h0 : a.rxPackets = 0 := by omega
      rw [List.filter_cons_of_neg (by simpa using h), ha h0, zero_add]

/-- C8: for every flow snapshot the recorder can hand over (a flow with no
received packet has delay sum 0, counters and flow count within their types),
`avgDelay` is the spec's `mean_delay_ms`: the sum of the delay-sums of all
flows, divided by `total_rx`, times 1000, when `total_rx > 0`, and 0 when
`total_rx = 0`. -/
theorem C8_mean_delay_formula (stats : List FlowStats) (hw : WellTyped stats)
    (hd : DelayOnlyOnReceive stats) :
    avgDelay stats = some (specMeanDelayMs stats) ∧
      (specTotalRx stats > 0 →
        avgDelay stats
          = some ((stats.map FlowStats.delaySum).sum / (specTotalRx stats : ℚ) * 1000)) ∧
      (specTotalRx stats = 0 → avgDelay stats = some 0) := by
  have he := avgDelay_exact stats hw
  rw [receivedDelaySum_eq_sum stats hd] at he
  refine ⟨he, fun hpos => ?_, fun hz => ?_⟩
  · rw [he, if_pos hpos]
  · rw [he, hz]; simp

/-- Witness of C8: a flow with 2 received packets and 3 s of delay, and a flow
that lost its only packet. -/
theorem C8_mean_delay_formula_witness :
    WellTyped [{ txPackets := 2, rxPackets := 2, delaySum := 3 },
               { txPackets := 1, rxPackets := 0, delaySum := 0 }] ∧
      DelayOnlyOnReceive [{ txPackets := 2, rxPackets := 2, delaySum := 3 },
                          { txPackets := 1, rxPackets := 0, delaySum := 0 }] ∧
      avgDelay [{ txPackets := 2, rxPackets := 2, delaySum := 3 },
                { txPackets := 1, rxPackets := 0, delaySum := 0 }]
        = some (specMeanDelayMs [{ txPackets := 2, rxPackets := 2, delaySum := 3 },
                                 { txPackets := 1, rxPackets := 0, delaySum := 0 }]) :=
  ⟨by decide,
   by intro f hf; simp at hf; rcases hf with rfl | rfl <;> simp,
   (C8_mean_delay_formula _ (by decide)
     (by intro f hf; simp at hf; rcases hf with rfl | rfl <;> simp)).1⟩

/-- C9: for a flow container as its type allows, with at least one received
packet, in which every flow has as many received as transmitted packets and
every received packet took `d` seconds (the delay-sum of a flow is its rx count
times `d`), `avgDelay` is `d * 1000`. -/
theorem C9_uniform_delay (stats : List FlowStats) (d : ℚ) (hw : WellTyped stats)
    (hrx : specTotalRx stats > 0)
    (_hall : ∀ f ∈ stats, f.rxPackets = f.txPackets)
    (hd : ∀ f ∈ stats, f.delaySum = (f.rxPackets : ℚ) * d) :
    avgDelay stats = some (d * 1000) := by
  rw [avgDelay_exact stats hw, if_pos hrx, receivedDelaySum_uniform d stats hd]
  have hne : (specTotalRx stats : ℚ) ≠ 0 := by
    have : specTotalRx stats ≠ 0 := by omega
    exact_mod_cast this
  rw [mul_comm (specTotalRx stats : ℚ) d, mul_div_assoc, div_self hne, mul_one]


/-- Witness of C9: one flow of 3 packets, each delayed 2 s, and an idle flow. -/
theorem C9_uniform_delay_witness :
    WellTyped [{ txPackets := 3, rxPackets := 3, delaySum := 6 },
               { txPackets := 0, rxPackets := 0, delaySum := 0 }] ∧
      specTotalRx [{ txPackets := 3, rxPackets := 3, delaySum := 6 },
                   { txPackets := 0, rxPackets := 0, delaySum := 0 }] > 0 ∧
      avgDelay [{ txPackets := 3, rxPackets := 3, delaySum := 6 },
                { txPackets := 0, rxPackets := 0, delaySum := 0 }] = some (2 * 1000) :=
  ⟨by decide, by decide,
   C9_uniform_delay _ 2 (by decide) (by decide)
     (by intro f hf; simp at hf; rcases hf with rfl | rfl <;> rfl)
     (by intro f hf; simp at hf; rcases hf with rfl | rfl <;> norm_num)⟩

theorem accumulate_comm (t : Totals) (a b : FlowStats) :
    accumulate (accumulate t a) b = accumulate (accumulate t b) a := by
  unfold accumulate
  simp only [Totals.mk.injEq]
  refine ⟨?_, ?_, ?_⟩
  · split_ifs <;> ring
  · omega
  · omega

theorem totals_perm (l₁ l₂ : List FlowStats) (h : l₁.Perm l₂) : totals l₁ = totals l₂ := by
  unfold totals
  exact List.Perm.foldl_eq' h (fun x _ y _ z => accumulate_comm z x y) _

/-- C10: on any two lists of per-flow statistics that are permutations of each
other the aggregation computes the same `totalTxPackets`, `totalRxPackets`,
`pdr` and `avgDelay`. -/
theorem C10_order_independent (l₁ l₂ : List FlowStats) (h : l₁.Perm l₂) :
    (totals l₁).totalTxPackets = (totals l₂).totalTxPackets ∧
      (totals l₁).totalRxPackets = (totals l₂).totalRxPackets ∧
      pdr l₁ = pdr l₂ ∧ avgDelay l₁ = avgDelay l₂ := by
  have ht := totals_perm l₁ l₂ h
  refine ⟨by rw [ht], by rw [ht], ?_, ?_⟩
  · unfold pdr; rw [ht]
  · unfold avgDelay; rw [ht]

/-- Witness of C10: two flows in either order. -/
theorem C10_order_independent_witness :
    List.Perm [({ txPackets := 4, rxPackets := 3, delaySum := 1 } : FlowStats),
               { txPackets := 2, rxPackets := 0, delaySum := 5 }]
              [{ txPackets := 2, rxPackets := 0, delaySum := 5 },
               { txPackets := 4, rxPackets := 3, delaySum := 1 }] ∧
      avgDelay [{ txPackets := 4, rxPackets := 3, delaySum := 1 },
                { txPackets := 2, rxPackets := 0, delaySum := 5 }]
        = avgDelay [{ txPackets := 2, rxPackets := 0, delaySum := 5 },
                    { txPackets := 4, rxPackets := 3, delaySum := 1 }] :=
  ⟨List.Perm.swap _ _ _, (C10_order_independent _ _ (List.Perm.swap _ _ _)).2.2.2⟩

end CloudWaste
